import Mathlib

/-!
Verification development for the DevCommandHub backend
(command parsing, slot validation, remote status mapping, job lifecycle).

The TypeScript sources are embedded shallowly:

* `NLU.regexParse` models `regexParse` of
  `src/backend/src/services/nluService.ts`.  The JavaScript regular
  expressions used there are compiled by hand into character-list scanning
  functions that reproduce the engine's leftmost-match, ordered-alternation
  and greedy/backtracking behaviour on the ASCII inputs the parser receives.
* `NLU.parseCommand` models `parseCommand` of the same file.  The network
  classifier call is abstracted by an explicit `Except String (List Ranked)`
  argument (the classifier contract): `.error e` models a thrown
  transport/API error caught by the surrounding `try/catch`, `.ok ranked`
  models the ranked `(action, score)` list the zero-shot / NLI branches
  produce.  Scores are modelled as rationals.
* `CP.normalizeEnvironment` and `CP.validateIntent` model
  `src/backend/src/services/commandParser.ts`.
* `GA.mapGaToDchStatus` models `mapGaToDchStatus` of
  `src/backend/src/services/githubActions.ts`.
* `Store.updateJobStatus` models the timestamp/status bookkeeping of
  `SupabaseService.updateJobStatus` in
  `src/backend/src/services/supabase.ts`, and `Store.validTrace` models the
  sequences of status updates the orchestrator in `src/backend/src/app.ts`
  issues for one job.
-/

namespace DCH

/-! ## Characters, word boundaries and scanning primitives -/

/-- JavaScript `\w` (`[A-Za-z0-9_]`) on the ASCII range. -/
def isWordChar (c : Char) : Bool := c.isAlphanum || c == '_'

/-- JavaScript `\s` restricted to the ASCII whitespace the commands contain. -/
def isJsSpace (c : Char) : Bool := c.isWhitespace

/-- JavaScript `\d`. -/
def isDigitC (c : Char) : Bool := c.isDigit

/-- Model of `String.prototype.toLowerCase` on ASCII input. -/
def lowerStr (s : String) : String := String.mk (s.data.map Char.toLower)

/-- Strip a literal pattern from the front of the input, returning the rest. -/
def stripL : List Char → List Char → Option (List Char)
  | [], l => some l
  | _ :: _, [] => none
  | p :: ps, c :: cs => if p == c then stripL ps cs else none

/-- Word boundary `\b` when the previously consumed character was a word
character: it holds iff the next character is absent or not a word char. -/
def boundaryAfter : List Char → Bool
  | [] => true
  | c :: _ => !isWordChar c

/-- Does the remaining input start with a word character? -/
def headIsWord : List Char → Bool
  | [] => false
  | c :: _ => isWordChar c

/-- Word boundary `\b` at a match start position, for patterns whose first
character is a word character: it holds iff the previous character is absent
or not a word character. -/
def atWordStart : Option Char → Bool
  | none => true
  | some c => !isWordChar c

/-- Leftmost-match scan: try the position-local matcher `f` at every input
position from left to right (`prev` is the character just before the current
position, used for `\b` assertions), returning the first success.  This is
how a JavaScript regex engine locates the first match of a pattern. -/
def scanPos {α : Type} (f : Option Char → List Char → Option α) :
    Option Char → List Char → Option α
  | prev, [] => f prev []
  | prev, c :: cs => (f prev (c :: cs)) <|> scanPos f (some c) cs

/-- Ordered alternation: first alternative that produces a result. -/
def firstSome {α β : Type} (f : α → Option β) : List α → Option β
  | [] => none
  | a :: rest => (f a) <|> firstSome f rest

/-- Match a single whole word (`\bw\b`) at the current position. -/
def wordHereAt (w : List Char) (prev : Option Char) (l : List Char) : Option Unit :=
  if atWordStart prev then
    match stripL w l with
    | some rest => if boundaryAfter rest then some () else none
    | none => none
  else none

/-- JavaScript `/\bw\b/.test(s)`. -/
def wordMatch (w : String) (s : String) : Bool :=
  (scanPos (wordHereAt w.data) none s.data).isSome

/-- Model of `String.prototype.includes`. -/
def hasSub : List Char → List Char → Bool
  | sub, [] => (stripL sub []).isSome
  | sub, c :: cs => (stripL sub (c :: cs)).isSome || hasSub sub cs

/-- Digit run to a natural number, as `Number("...")` on a digit string. -/
def digitsToNat (l : List Char) : ℕ :=
  l.foldl (fun n c => 10 * n + (c.toNat - '0'.toNat)) 0

end DCH

namespace NLU

open DCH

/-- Action vocabulary of `ParsedIntent["action"]` in `nluService.ts`. -/
inductive Action
  | deploy | rollback | scale | restart | logs | status | unknown
deriving DecidableEq, Repr

/-- Debug payload attached by `parseCommand` (`debug` field). -/
inductive DebugInfo
  | ranked (model : String) (threshold : ℚ) (isZeroShot : Bool)
      (rankedActions : List (Action × ℚ))
  | modelOnly (model : String)
deriving DecidableEq, Repr

/-- Model of the `ParsedIntent` type of `nluService.ts`. -/
structure ParsedIntent where
  action : Action
  environment : Option String
  service : Option String
  replicas : Option ℕ
  confidence : ℚ
  source : String
  debug : Option DebugInfo := none
  error : Option String := none
deriving DecidableEq, Repr

/-! ### Environment extraction

`regexParse` tries, in order, the three patterns

* `/\b(?:to|in|on|for)\s+(prod|production|staging|stage|dev|development|local|test|testing|qa|uat)\b/`
* `/\b(prod|...|uat)\s+(?:env|environment)\b/`
* `/\benv(?:ironment)?[:=]\s*(prod|...|uat)\b/`

and keeps the first capture. -/

/-- Alias alternatives of the environment patterns, in regex order. -/
def envAliases : List String :=
  ["prod", "production", "staging", "stage", "dev", "development", "local",
   "test", "testing", "qa", "uat"]

/-- Match the capture group `(prod|...|uat)\b` at the current position: the
ordered alternation together with the trailing `\b` accepts exactly the
alternative that ends at a word boundary. -/
def aliasAt (l : List Char) : Option String :=
  firstSome
    (fun a =>
      match stripL a.data l with
      | some rest => if boundaryAfter rest then some a else none
      | none => none)
    envAliases

/-- Position-local matcher for the first environment pattern. -/
def envPat1At (prev : Option Char) (l : List Char) : Option String :=
  if atWordStart prev then
    firstSome
      (fun kw =>
        match stripL kw.data l with
        | some rest =>
            if (rest.takeWhile isJsSpace).isEmpty then none
            else aliasAt (rest.dropWhile isJsSpace)
        | none => none)
      ["to", "in", "on", "for"]
  else none

/-- Acceptance of `(?:env|environment)\b`. -/
def envWordAfter (l : List Char) : Bool :=
  (match stripL "environment".data l with
   | some rest => boundaryAfter rest
   | none => false) ||
  (match stripL "env".data l with
   | some rest => boundaryAfter rest
   | none => false)

/-- Position-local matcher for the second environment pattern. -/
def envPat2At (prev : Option Char) (l : List Char) : Option String :=
  if atWordStart prev then
    firstSome
      (fun a =>
        match stripL a.data l with
        | some rest =>
            if (rest.takeWhile isJsSpace).isEmpty then none
            else if envWordAfter (rest.dropWhile isJsSpace) then some a else none
        | none => none)
      envAliases
  else none

/-- Continuation `[:=]\s*(alias)\b` of the third environment pattern. -/
def envPat3Cont (l : List Char) : Option String :=
  match l with
  | c :: rest =>
      if c == ':' || c == '=' then aliasAt (rest.dropWhile isJsSpace) else none
  | [] => none

/-- Position-local matcher for the third environment pattern; the optional
`(?:ironment)?` group is greedy, so the long form is tried first. -/
def envPat3At (prev : Option Char) (l : List Char) : Option String :=
  if atWordStart prev then
    match stripL "env".data l with
    | some rest =>
        (match stripL "ironment".data rest with
         | some rest2 => envPat3Cont rest2
         | none => none) <|> envPat3Cont rest
    | none => none
  else none

/-- Environment extraction loop of `regexParse`: first pattern with a
capture wins. -/
def extractEnvironment (c : String) : Option String :=
  (scanPos envPat1At none c.data) <|>
  (scanPos envPat2At none c.data) <|>
  (scanPos envPat3At none c.data)

/-! ### Service extraction

The three service patterns of `regexParse`, in priority order:

* `/\b(api|backend|...|proxy)-?(?:service|svc|app)?\b/`
* `/\b([a-zA-Z0-9]+(?:-[a-zA-Z0-9]+)*)-(?:service|svc|app)\b/`
* `/\b([a-zA-Z][a-zA-Z0-9._-]{1,30})\b(?=\s+(?:to|in|on|for|$))/`

A capture that is a stopword moves on to the next pattern. -/

/-- Known service names of the first pattern, in regex order. -/
def serviceNames : List String :=
  ["api", "backend", "server", "web", "webapp", "frontend", "db", "database",
   "worker", "auth", "user", "payment", "notification", "gateway", "proxy"]

/-- Acceptance of the `-?(?:service|svc|app)?\b` tail of the first service
pattern.  The backtracking branches collapse to: a literal suffix ending in a
letter followed by a word boundary, a bare `-` followed by a word character
(the `\b` after a non-word `-`), or no suffix at all with a word boundary. -/
def svc1SuffixOk (rest : List Char) : Bool :=
  (["-service", "-svc", "-app", "service", "svc", "app"].any fun suf =>
    match stripL suf.data rest with
    | some rest2 => boundaryAfter rest2
    | none => false) ||
  (match rest with
   | '-' :: c :: _ => isWordChar c
   | _ => false) ||
  boundaryAfter rest

/-- Position-local matcher for the first service pattern; the capture group
is the listed name itself. -/
def svc1At (prev : Option Char) (l : List Char) : Option String :=
  if atWordStart prev then
    firstSome
      (fun name =>
        match stripL name.data l with
        | some rest => if svc1SuffixOk rest then some name else none
        | none => none)
      serviceNames
  else none

/-- Alphanumeric character class `[a-zA-Z0-9]` of the second pattern. -/
def alnumC (c : Char) : Bool := c.isAlphanum

/-- Terminator `-(?:service|svc|app)\b` of the second service pattern. -/
def svc2Term (l : List Char) : Bool :=
  ["-service", "-svc", "-app"].any fun suf =>
    match stripL suf.data l with
    | some rest2 => boundaryAfter rest2
    | none => false

/-- Backtracking over `(?:-[a-zA-Z0-9]+)*` in the second service pattern:
extend the captured chain greedily first, and on failure check the
terminator at the current point.  `fuel` bounds the recursion by the input
length (each extension consumes at least two characters); it is never
exhausted when called with `fuel = l.length`. -/
def svc2Chain (fuel : ℕ) (acc : List Char) (l : List Char) : Option (List Char) :=
  match fuel with
  | 0 => if svc2Term l then some acc else none
  | fuel + 1 =>
      (match l with
       | '-' :: rest =>
           let w := rest.takeWhile alnumC
           if w.isEmpty then none
           else svc2Chain fuel (acc ++ '-' :: w) (rest.dropWhile alnumC)
       | _ => none) <|>
      (if svc2Term l then some acc else none)

/-- Position-local matcher for the second service pattern. -/
def svc2At (prev : Option Char) (l : List Char) : Option String :=
  if atWordStart prev then
    let w0 := l.takeWhile alnumC
    if w0.isEmpty then none
    else (svc2Chain l.length w0 (l.dropWhile alnumC)).map fun cs => String.mk cs
  else none

/-- Character class `[a-zA-Z0-9._-]` of the third service pattern. -/
def s3Class (c : Char) : Bool := c.isAlphanum || c == '.' || c == '_' || c == '-'

/-- Lookahead `(?=\s+(?:to|in|on|for|$))`: at least one whitespace, then one
of the listed literals as a prefix, or the end of the input. -/
def s3Look (rest : List Char) : Bool :=
  if (rest.takeWhile isJsSpace).isEmpty then false
  else
    let after := rest.dropWhile isJsSpace
    after.isEmpty || (["to", "in", "on", "for"].any fun kw => (stripL kw.data after).isSome)

/-- Backtracking over `{1,30}` in the third service pattern: try the longest
body first (`j + 1` further characters after the leading letter), shrinking
until the trailing `\b` and the lookahead both hold. -/
def s3Go (h : Char) (tl : List Char) : ℕ → Option String
  | 0 => none
  | j + 1 =>
      let bodyTail := tl.take (j + 1)
      let rest := tl.drop (j + 1)
      let lastC := bodyTail.getLastD h
      if (isWordChar lastC != headIsWord rest) && s3Look rest then
        some (String.mk (h :: bodyTail))
      else s3Go h tl j

/-- Position-local matcher for the third service pattern. -/
def svc3At (prev : Option Char) (l : List Char) : Option String :=
  if atWordStart prev then
    match l with
    | h :: tl =>
        if h.isAlpha then
          s3Go h tl (min ((tl.takeWhile s3Class).length) 30)
        else none
    | [] => none
  else none

/-- Stopwords skipped by the service loop. -/
def stopWords : List String :=
  ["the", "and", "or", "but", "to", "in", "on", "for", "show", "get", "set"]

/-- Service extraction loop of `regexParse`: for each pattern take its first
match; a stopword capture moves to the next pattern, any other capture is
returned. -/
def svcPick : List (Option String) → Option String
  | [] => none
  | none :: rest => svcPick rest
  | some w :: rest => if stopWords.contains w then svcPick rest else some w

/-- Service extraction of `regexParse`. -/
def extractService (c : String) : Option String :=
  svcPick
    [scanPos svc1At none c.data,
     scanPos svc2At none c.data,
     scanPos svc3At none c.data]

/-! ### Replica extraction

The four replica patterns of `regexParse`, in priority order:

* `/(\d+)\s*(?:replica|replicas|pods?|instances?)\b/`
* `/\bto\s+(\d+)\s*(?:replica|replicas|pods?|instances?)?\b/`
* `/\breplica(?:s|count)?[:=]\s*(\d+)\b/`
* `/\bscale\b[^\d]*(\d+)\b/`

The loop keeps the first pattern whose (first-match) number lies in
`[0, 100]`; an out-of-range number moves on to the next pattern. -/

/-- Acceptance of `(?:replica|replicas|pods?|instances?)\b`: the
alternation, optional `s` and trailing `\b` together accept exactly these
six complete words. -/
def unitWordAt (l : List Char) : Bool :=
  ["replica", "replicas", "pod", "pods", "instance", "instances"].any fun w =>
    match stripL w.data l with
    | some rest => boundaryAfter rest
    | none => false

/-- Position-local matcher for the first replica pattern.  The scan is
anchored at digit-run starts: a match starting mid-run consumes the same run
tail and continuation, so leftmost-match always reports the full run. -/
def r1At (prev : Option Char) (l : List Char) : Option ℕ :=
  match l with
  | c :: _ =>
      if isDigitC c && !(match prev with | some p => isDigitC p | none => false) then
        let run := l.takeWhile isDigitC
        if unitWordAt ((l.dropWhile isDigitC).dropWhile isJsSpace) then
          some (digitsToNat run)
        else none
      else none
  | [] => none

/-- Position-local matcher for the second replica pattern.  With the unit
word absent, backtracking over `\s*` makes the trailing `\b` hold exactly
when the character right after the digits is absent or not a word
character. -/
def r2At (prev : Option Char) (l : List Char) : Option ℕ :=
  if atWordStart prev then
    match stripL "to".data l with
    | some rest =>
        if (rest.takeWhile isJsSpace).isEmpty then none
        else
          let afterWs := rest.dropWhile isJsSpace
          let run := afterWs.takeWhile isDigitC
          if run.isEmpty then none
          else
            let rest2 := afterWs.dropWhile isDigitC
            if unitWordAt (rest2.dropWhile isJsSpace) then some (digitsToNat run)
            else if !headIsWord rest2 then some (digitsToNat run)
            else none
    | none => none
  else none

/-- Continuation `[:=]\s*(\d+)\b` of the third replica pattern. -/
def r3Cont (l : List Char) : Option ℕ :=
  match l with
  | c :: rest =>
      if c == ':' || c == '=' then
        let afterWs := rest.dropWhile isJsSpace
        let run := afterWs.takeWhile isDigitC
        if run.isEmpty then none
        else if boundaryAfter (afterWs.dropWhile isDigitC) then
          some (digitsToNat run)
        else none
      else none
  | [] => none

/-- Position-local matcher for the third replica pattern; the optional
`(?:s|count)` group tries `s`, then `count`, then nothing. -/
def r3At (prev : Option Char) (l : List Char) : Option ℕ :=
  if atWordStart prev then
    match stripL "replica".data l with
    | some rest =>
        (match stripL "s".data rest with
         | some r2 => r3Cont r2
         | none => none) <|>
        (match stripL "count".data rest with
         | some r2 => r3Cont r2
         | none => none) <|>
        r3Cont rest
    | none => none
  else none

/-- Position-local matcher for the fourth replica pattern: the word `scale`,
then the maximal run of non-digits, then a digit run that must end at a word
boundary. -/
def r4At (prev : Option Char) (l : List Char) : Option ℕ :=
  if atWordStart prev then
    match stripL "scale".data l with
    | some rest =>
        if boundaryAfter rest then
          let afterND := rest.dropWhile (fun c => !isDigitC c)
          match afterND with
          | [] => none
          | _ :: _ =>
              let run := afterND.takeWhile isDigitC
              if boundaryAfter (afterND.dropWhile isDigitC) then
                some (digitsToNat run)
              else none
        else none
    | none => none
  else none

/-- First-match candidate of each replica pattern, in priority order. -/
def replicaCandidates (c : String) : List (Option ℕ) :=
  [scanPos r1At none c.data,
   scanPos r2At none c.data,
   scanPos r3At none c.data,
   scanPos r4At none c.data]

/-- Replica selection loop of `regexParse`: first candidate with a number in
`[0, 100]` (naturals are nonnegative, so only the upper bound is checked). -/
def pickReplicas : List (Option ℕ) → Option ℕ
  | [] => none
  | none :: rest => pickReplicas rest
  | some n :: rest => if n ≤ 100 then some n else pickReplicas rest

/-! ### Action detection -/

/-- Matcher for `/\b(?:roll\s*back|rollback)\b/` (the second alternative is
the first one with zero whitespace). -/
def rollbackAt (prev : Option Char) (l : List Char) : Option Unit :=
  if atWordStart prev then
    match stripL "roll".data l with
    | some rest =>
        match stripL "back".data (rest.dropWhile isJsSpace) with
        | some rest2 => if boundaryAfter rest2 then some () else none
        | none => none
    | none => none
  else none

/-- JavaScript test of the rollback pattern. -/
def matchesRollback (s : String) : Bool := (scanPos rollbackAt none s.data).isSome

/-- Ordered action patterns of `regexParse` with their actions, encoding the
precedence rollback > scale > restart > logs > status > deploy. -/
def actionPatterns : List ((String → Bool) × Action) :=
  [(fun c => matchesRollback c, .rollback),
   (fun c => wordMatch "scale" c || wordMatch "replica" c || wordMatch "autoscal" c, .scale),
   (fun c => wordMatch "restart" c || wordMatch "reboot" c || wordMatch "reload" c, .restart),
   (fun c => wordMatch "log" c || wordMatch "logs" c || wordMatch "tail" c, .logs),
   (fun c => wordMatch "status" c || wordMatch "health" c || wordMatch "ping" c || wordMatch "check" c, .status),
   (fun c => wordMatch "deploy" c || wordMatch "release" c || wordMatch "ship" c || wordMatch "push" c, .deploy)]

/-- First-match action selection of `regexParse`. -/
def firstAction : List ((String → Bool) × Action) → String → Action
  | [], _ => .unknown
  | (p, a) :: rest, c => if p c then a else firstAction rest c

/-- Action detection of `regexParse`. -/
def detectAction (c : String) : Action := firstAction actionPatterns c

/-! ### The rule-based parser -/

/-- Model of `regexParse` of `nluService.ts`: lowercase the command, then
run the environment, service, replica and action extractions. -/
def regexParse (command : String) : ParsedIntent :=
  let c := lowerStr command
  { action := detectAction c
    environment := extractEnvironment c
    service := extractService c
    replicas := pickReplicas (replicaCandidates c)
    confidence := 1 / 2
    source := "regex" }

end NLU

namespace NLU

open DCH

/-! ### The classifier-augmented parser -/

/-- Test of `isZeroShotModel` in `nluService.ts`. -/
def isZeroShotModel (model : String) : Bool :=
  let m := lowerStr model
  hasSub "bart-large-mnli".data m.data || hasSub "zero-shot".data m.data

/-- Model of `Number(x.toFixed(3))`: rounding to three decimal places. -/
def round3 (q : ℚ) : ℚ := ((round (q * 1000) : ℤ) : ℚ) / 1000

/-- Model of `parseCommand` of `nluService.ts`.  The HTTP classifier call is
replaced by the explicit `classifierResult` argument: `.ok ranked` is the
score-sorted `(action, score)` ranking assembled by the zero-shot or NLI
branch, `.error err` is a thrown transport/API error, which the function's
`try/catch` converts into the regex fallback.  `model` stands for the
`HF_MODEL` configuration (`DEFAULT_HF_MODEL`). -/
def parseCommand (command : String) (hfApiKey : Option String)
    (confidenceThreshold : ℚ) (model : String)
    (classifierResult : Except String (List (Action × ℚ))) : ParsedIntent :=
  let coarse := regexParse command
  match hfApiKey with
  | none => { coarse with source := "regex" }
  | some _ =>
    match classifierResult with
    | .error err =>
        { coarse with
            source := "regex-error-fallback"
            error := some err
            debug := some (.modelOnly model) }
    | .ok ranked =>
        let debugInfo :=
          some (DebugInfo.ranked model confidenceThreshold (isZeroShotModel model)
            (ranked.take 6))
        match ranked.head? with
        | none =>
            -- with an empty ranking, `top?.score ?? 0` is 0; if that passes
            -- the threshold the code reads `top.action` on `undefined`,
            -- which throws and is converted by the `catch` block
            if confidenceThreshold ≤ 0 then
              { coarse with
                  source := "regex-error-fallback"
                  error := some "TypeError: Cannot read properties of undefined"
                  debug := some (.modelOnly model) }
            else
              { action := .unknown
                environment := coarse.environment
                service := coarse.service
                replicas := coarse.replicas
                confidence := round3 0
                source := "regex-fallback"
                debug := debugInfo }
        | some top =>
            if confidenceThreshold ≤ top.2 then
              { action := top.1
                environment := coarse.environment
                service := coarse.service
                replicas := coarse.replicas
                confidence := round3 top.2
                source := "hf:" ++ model
                debug := debugInfo }
            else
              { action := .unknown
                environment := coarse.environment
                service := coarse.service
                replicas := coarse.replicas
                confidence := round3 top.2
                source := "regex-fallback"
                debug := debugInfo }

end NLU

namespace CP

open DCH

/-! ## `commandParser.ts`: environment normalization and intent validation -/

/-- Model of `String.prototype.trim` (ASCII whitespace). -/
def trimStr (s : String) : String :=
  String.mk (((s.data.dropWhile isJsSpace).reverse.dropWhile isJsSpace).reverse)

/-- Alias table of `normalizeEnvironment`, in source order. -/
def envAliasMap : List (String × String) :=
  [("prod", "production"), ("production", "production"),
   ("stage", "staging"), ("staging", "staging"),
   ("dev", "development"), ("develop", "development"), ("development", "development"),
   ("test", "test"), ("testing", "test"),
   ("qa", "qa"), ("uat", "uat")]

/-- Model of `normalizeEnvironment` of `commandParser.ts`: a missing or
empty (falsy) argument is returned unchanged, otherwise the trimmed
lowercased alias is looked up in the table with the trimmed lowercased
input itself as fallback. -/
def normalizeEnvironment : Option String → Option String
  | none => none
  | some env =>
      if env == "" then some env
      else
        let e := lowerStr (trimStr env)
        some ((envAliasMap.lookup e).getD e)

/-- Canonical environment names. -/
def canonicalEnvs : List String :=
  ["production", "staging", "development", "test", "qa", "uat"]

/-- Model of the `ParsedIntent` interface of `commandParser.ts` (the fields
`validateIntent` inspects; `replicas` is a JavaScript number, modelled as a
rational). -/
structure CPIntent where
  action : String
  service : Option String := none
  environment : Option String := none
  replicas : Option ℚ := none
  confidence : ℚ := 0
deriving DecidableEq, Repr

/-- Result of `CommandParser.validateIntent`. -/
inductive ValidationResult
  | valid
  | invalid (error : String)
deriving DecidableEq, Repr

/-- JavaScript truthiness of an optional string (`undefined` and `""` are
falsy). -/
def truthy : Option String → Bool
  | none => false
  | some s => !(s == "")

/-- Model of `CommandParser.validateIntent` of `commandParser.ts`.  The
in-place normalization of `intent.environment` performed by the original is
a side effect on the argument and is not part of the returned verdict. -/
def validateIntent (intent : CPIntent) : ValidationResult :=
  if intent.action == "" then .invalid "Action is required"
  else if intent.action == "deploy" then
    if !truthy intent.service then .invalid "Service name is required for deploy"
    else if !truthy (normalizeEnvironment intent.environment) then
      .invalid "Environment is required for deploy"
    else .valid
  else if intent.action == "scale" then
    if !truthy intent.service then .invalid "Service name is required for scale"
    else
      match intent.replicas with
      | none => .invalid "Replicas must be a number between 0 and 100"
      | some r =>
          if r < 0 ∨ 100 < r then .invalid "Replicas must be a number between 0 and 100"
          else .valid
  else if intent.action == "logs" || intent.action == "rollback" ||
          intent.action == "status" || intent.action == "restart" then
    if !truthy intent.service then
      .invalid ("Service name is required for " ++ intent.action)
    else .valid
  else .invalid ("Unsupported action: " ++ intent.action)

end CP

namespace GA

/-! ## `githubActions.ts`: remote status mapping -/

/-- GitHub Actions run status (`GAStatus`). -/
inductive GAStatus
  | queued | in_progress | completed
deriving DecidableEq, Repr

/-- GitHub Actions run conclusion (`GAConclusion`, with `null` for the
absent conclusion of an unfinished run). -/
inductive GAConclusion
  | success | failure | cancelled | timed_out | action_required | null
deriving DecidableEq, Repr

/-- DevCommandHub job status (the `status` column of the jobs table). -/
inductive JobStatus
  | queued | running | completed | failed | cancelled
deriving DecidableEq, Repr

/-- Model of `mapGaToDchStatus` of `githubActions.ts`. -/
def mapGaToDchStatus (gaStatus : GAStatus) (gaConclusion : GAConclusion) : JobStatus :=
  if gaStatus == .queued || gaStatus == .in_progress then .running
  else if gaStatus == .completed then
    if gaConclusion == .success then .completed
    else if gaConclusion == .cancelled then .cancelled
    else .failed
  else .queued

end GA

namespace Store

open GA

/-! ## `supabase.ts` and `app.ts`: job record updates

`SupabaseService.updateJobStatus` writes the new status and, as a side
condition, stamps `started_at` when the new status is `running` and
`completed_at` when it is terminal.  The orchestrator call sites in `app.ts`
pass the same timestamps explicitly in `additionalData`, so the flag model
below captures both.  Only the presence of the timestamps matters for the
claims, not their values. -/

/-- Terminal statuses (`['completed', 'failed', 'cancelled']`). -/
def isTerminal : JobStatus → Bool
  | .completed | .failed | .cancelled => true
  | _ => false

/-- Presence (not value) of the lifecycle columns of one job row. -/
structure JobTimes where
  status : JobStatus
  startedSet : Bool
  completedSet : Bool
deriving DecidableEq, Repr

/-- Row created by `SupabaseService.createJob`: status `queued`, no
`started_at`, no `completed_at`. -/
def freshJob : JobTimes := ⟨.queued, false, false⟩

/-- Model of `SupabaseService.updateJobStatus`: the update writes `status`,
sets `started_at` when the status is `running`, and sets `completed_at` when
the status is terminal; columns not mentioned keep their value. -/
def updateJobStatus (j : JobTimes) (s : JobStatus) : JobTimes :=
  { status := s
    startedSet := j.startedSet || (s == .running)
    completedSet := j.completedSet || isTerminal s }

/-- Status updates the orchestrator in `app.ts` issues for one job: from
`queued` or `running` it may write `running` (simulation start, dispatch
acknowledgement, run discovery) or a terminal status (completion, failure
— including a dispatch error straight from `queued` — or cancellation);
after a terminal write the simulation/polling chain for the job stops, so
no further update occurs. -/
def appStep (s u : JobStatus) : Bool :=
  (s == .queued || s == .running) && (u == .running || isTerminal u)

/-- Is a sequence of status updates one the orchestrator can issue starting
from status `s`? -/
def validTrace : JobStatus → List JobStatus → Bool
  | _, [] => true
  | s, u :: rest => appStep s u && validTrace u rest

/-- Apply a sequence of `updateJobStatus` calls to a row. -/
def applyTrace (j : JobTimes) (tr : List JobStatus) : JobTimes :=
  tr.foldl updateJobStatus j

/-- Lifecycle progress order: `queued` before `running` before terminal. -/
def statusRank : JobStatus → ℕ
  | .queued => 0
  | .running => 1
  | _ => 2

end Store

namespace NLU

/-- Statement helper for the replica claims: a pattern candidate that is
absent or out of the accepted range `[0, 100]`. -/
def candidateOut : Option ℕ → Bool
  | none => true
  | some n => decide (100 < n)

end NLU

/-- Score literal 0.55 (`11/20`), written in lowest terms so that kernel
evaluation of score comparisons is possible. -/
def q055 : ℚ := ⟨11, 20, by decide, by decide⟩

/-- Threshold literal 0.7 (`7/10`). -/
def q07 : ℚ := ⟨7, 10, by decide, by decide⟩

/-- Value literal 0.5 (`1/2`), a number that is not an integer. -/
def qhalf : ℚ := ⟨1, 2, by decide, by decide⟩

/-! ## Helper lemmas -/

/-- First-match selection returns `unknown` when no pattern matches. -/
theorem firstAction_eq_unknown (c : String) :
    ∀ ps : List ((String → Bool) × NLU.Action),
      (∀ p ∈ ps, p.1 c = false) → NLU.firstAction ps c = .unknown := by
  intro ps
  induction ps with
  | nil => intro _; rfl
  | cons p rest ih =>
      intro h
      obtain ⟨f, a⟩ := p
      have hp : f c = false := h (f, a) (List.mem_cons_self _ _)
      simp only [NLU.firstAction, hp, Bool.false_eq_true, if_false]
      exact ih fun q hq => h q (List.mem_cons_of_mem _ hq)

/-- First-match selection returns the pattern at index `i` when it matches
and every earlier pattern fails. -/
theorem firstAction_eq_of_first :
    ∀ (ps : List ((String → Bool) × NLU.Action)) (c : String) (i : ℕ) (hi : i < ps.length),
      (ps.get ⟨i, hi⟩).1 c = true →
      (∀ j, ∀ hj : j < i, (ps.get ⟨j, Nat.lt_trans hj hi⟩).1 c = false) →
      NLU.firstAction ps c = (ps.get ⟨i, hi⟩).2 := by
  intro ps
  induction ps with
  | nil => intro c i hi; exact absurd hi (Nat.not_lt_zero i)
  | cons p rest ih =>
      intro c i hi hmatch hbefore
      obtain ⟨f, a⟩ := p
      cases i with
      | zero => simp only [List.get] at hmatch ⊢; simp [NLU.firstAction, hmatch]
      | succ k =>
          have hp : f c = false := by
            have := hbefore 0 (Nat.succ_pos k)
            simpa using this
          simp only [NLU.firstAction, hp, Bool.false_eq_true, if_false, List.get]
          exact ih c k (Nat.lt_of_succ_lt_succ hi) (by simpa using hmatch)
            (fun j hj => by simpa using hbefore (j + 1) (Nat.succ_lt_succ hj))

/-- Every replica count the selection loop returns is at most 100. -/
theorem pickReplicas_le :
    ∀ (l : List (Option ℕ)) (n : ℕ), NLU.pickReplicas l = some n → n ≤ 100 := by
  intro l
  induction l with
  | nil => intro n h; simp [NLU.pickReplicas] at h
  | cons o rest ih =>
      intro n h
      cases o with
      | none => exact ih n h
      | some m =>
          by_cases hm : m ≤ 100
          · simp only [NLU.pickReplicas, if_pos hm, Option.some.injEq] at h
            exact h ▸ hm
          · simp only [NLU.pickReplicas, if_neg hm] at h
            exact ih n h

/-- When every candidate is absent or out of range, the selection loop
leaves the count unset. -/
theorem pickReplicas_none :
    ∀ l : List (Option ℕ), l.all NLU.candidateOut = true → NLU.pickReplicas l = none := by
  intro l
  induction l with
  | nil => intro _; rfl
  | cons o rest ih =>
      intro h
      rw [List.all_cons, Bool.and_eq_true] at h
      cases o with
      | none => exact ih h.2
      | some m =>
          have hm : ¬ m ≤ 100 := by
            have := h.1
            simp only [NLU.candidateOut, decide_eq_true_eq] at this
            omega
          simp only [NLU.pickReplicas, if_neg hm]
          exact ih h.2

/-- A status accepted as the source of an orchestrator step is not
terminal. -/
theorem appStep_not_terminal :
    ∀ s u : GA.JobStatus, Store.appStep s u = true → Store.isTerminal s = false := by
  intro s u h
  revert h
  cases s <;> cases u <;> decide

/-- Orchestrator steps never decrease the lifecycle rank. -/
theorem appStep_rank :
    ∀ s u : GA.JobStatus, Store.appStep s u = true → Store.statusRank s ≤ Store.statusRank u := by
  intro s u h
  revert h
  cases s <;> cases u <;> decide

/-- The `started_at` flag after a sequence of updates: set exactly when it
was set before or some update wrote `running`. -/
theorem applyTrace_startedSet :
    ∀ (tr : List GA.JobStatus) (j : Store.JobTimes),
      (Store.applyTrace j tr).startedSet
        = (j.startedSet || tr.any fun s => s == GA.JobStatus.running) := by
  intro tr
  induction tr with
  | nil => intro j; simp [Store.applyTrace]
  | cons u rest ih =>
      intro j
      have h1 := ih (Store.updateJobStatus j u)
      simp only [Store.applyTrace, List.foldl_cons, List.any_cons] at h1 ⊢
      rw [h1]
      simp [Store.updateJobStatus, Bool.or_assoc]

/-- Along a valid trace, the `completed_at` flag tracks terminality of the
current status. -/
theorem applyTrace_completedSet :
    ∀ (tr : List GA.JobStatus) (j : Store.JobTimes),
      Store.validTrace j.status tr = true →
      j.completedSet = Store.isTerminal j.status →
      (Store.applyTrace j tr).completedSet
        = Store.isTerminal (Store.applyTrace j tr).status := by
  intro tr
  induction tr with
  | nil => intro j _ h; exact h
  | cons u rest ih =>
      intro j hv hj
      rw [show Store.validTrace j.status (u :: rest)
            = (Store.appStep j.status u && Store.validTrace u rest) from rfl,
        Bool.and_eq_true] at hv
      have hterm : Store.isTerminal j.status = false := appStep_not_terminal _ _ hv.1
      have hstep : (Store.updateJobStatus j u).completedSet
          = Store.isTerminal (Store.updateJobStatus j u).status := by
        simp [Store.updateJobStatus, hj, hterm]
      exact ih (Store.updateJobStatus j u) hv.2 hstep

/-- Along a valid trace the statuses are non-decreasing in lifecycle
rank. -/
theorem validTrace_chain :
    ∀ (tr : List GA.JobStatus) (s : GA.JobStatus),
      Store.validTrace s tr = true →
      List.Chain (fun a b => Store.statusRank a ≤ Store.statusRank b) s tr := by
  intro tr
  induction tr with
  | nil => intro s _; exact List.Chain.nil
  | cons u rest ih =>
      intro s hv
      rw [show Store.validTrace s (u :: rest)
            = (Store.appStep s u && Store.validTrace u rest) from rfl,
        Bool.and_eq_true] at hv
      exact List.Chain.cons (appStep_rank _ _ hv.1) (ih u hv.2)

/-! ## Claims -/

/-- C1 (counterexample).  The claim states that a below-threshold classifier
result keeps the rule-based action.  At the concrete command
`"deploy api to prod"`, whose rule-based action is `deploy`, a classifier
ranking `(deploy, 0.55)` under threshold `0.7` makes `parseCommand` return
action `unknown` with source `"regex-fallback"` — not the rule-based
action. -/
theorem c1_counterexample :
    (NLU.parseCommand "deploy api to prod" (some "hf_key") q07
        "facebook/bart-large-mnli" (.ok [(.deploy, q055)])).action
      = NLU.Action.unknown ∧
    (NLU.parseCommand "deploy api to prod" (some "hf_key") q07
        "facebook/bart-large-mnli" (.ok [(.deploy, q055)])).source
      = "regex-fallback" ∧
    (NLU.regexParse "deploy api to prod").action = NLU.Action.deploy ∧
    ¬ (NLU.parseCommand "deploy api to prod" (some "hf_key") q07
        "facebook/bart-large-mnli" (.ok [(.deploy, q055)])).action
      = (NLU.regexParse "deploy api to prod").action := by
  decide

/-- C1 (amended).  For every command whose top-ranked classifier score is
below the confidence threshold, the parse result's action is `unknown` (not
the rule-based action), its source is `"regex-fallback"`, and its
environment, service and replica slots are those of the rule-based pass. -/
theorem c1_low_confidence_fallback :
    ∀ (command hfKey model : String) (thr : ℚ)
      (ranked : List (NLU.Action × ℚ)) (top : NLU.Action × ℚ),
      ranked.head? = some top → top.2 < thr →
      (NLU.parseCommand command (some hfKey) thr model (.ok ranked)).action
          = NLU.Action.unknown ∧
      (NLU.parseCommand command (some hfKey) thr model (.ok ranked)).source
          = "regex-fallback" ∧
      (NLU.parseCommand command (some hfKey) thr model (.ok ranked)).environment
          = (NLU.regexParse command).environment ∧
      (NLU.parseCommand command (some hfKey) thr model (.ok ranked)).service
          = (NLU.regexParse command).service ∧
      (NLU.parseCommand command (some hfKey) thr model (.ok ranked)).replicas
          = (NLU.regexParse command).replicas := by
  intro command hfKey model thr ranked top hhead hlt
  have hnot : ¬ thr ≤ top.2 := not_le.mpr hlt
  simp [NLU.parseCommand, hhead, hnot]

/-- C1 (witness).  The amended statement applied to the claim's scenario:
command `"deploy api to prod"`, ranking `(deploy, 0.55)`, threshold 0.7. -/
theorem c1_low_confidence_fallback_witness :
    ([((NLU.Action.deploy : NLU.Action), q055)].head? = some (NLU.Action.deploy, q055)) ∧
    q055 < q07 ∧
    ((NLU.parseCommand "deploy api to prod" (some "hf_key") q07
        "facebook/bart-large-mnli" (.ok [(.deploy, q055)])).action
          = NLU.Action.unknown ∧
      (NLU.parseCommand "deploy api to prod" (some "hf_key") q07
        "facebook/bart-large-mnli" (.ok [(.deploy, q055)])).source
          = "regex-fallback" ∧
      (NLU.parseCommand "deploy api to prod" (some "hf_key") q07
        "facebook/bart-large-mnli" (.ok [(.deploy, q055)])).environment
          = (NLU.regexParse "deploy api to prod").environment ∧
      (NLU.parseCommand "deploy api to prod" (some "hf_key") q07
        "facebook/bart-large-mnli" (.ok [(.deploy, q055)])).service
          = (NLU.regexParse "deploy api to prod").service ∧
      (NLU.parseCommand "deploy api to prod" (some "hf_key") q07
        "facebook/bart-large-mnli" (.ok [(.deploy, q055)])).replicas
          = (NLU.regexParse "deploy api to prod").replicas) :=
  ⟨rfl, by decide,
    c1_low_confidence_fallback "deploy api to prod" "hf_key"
      "facebook/bart-large-mnli" q07 [(.deploy, q055)] (.deploy, q055) rfl (by decide)⟩

/-- C2.  The remote-status mapping is a total function (it is a Lean
function on the full `GAStatus × GAConclusion` domain) and maps: `queued`
and `in_progress` to `running` for every conclusion; `completed` with
`success` to `completed`; `completed` with `cancelled` to `cancelled`; and
`completed` with `failure`, `timed_out`, `action_required` or a null
conclusion to `failed`. -/
theorem c2_status_mapping :
    ∀ conc : GA.GAConclusion,
      GA.mapGaToDchStatus .queued conc = .running ∧
      GA.mapGaToDchStatus .in_progress conc = .running ∧
      GA.mapGaToDchStatus .completed .success = .completed ∧
      GA.mapGaToDchStatus .completed .cancelled = .cancelled ∧
      GA.mapGaToDchStatus .completed .failure = .failed ∧
      GA.mapGaToDchStatus .completed .timed_out = .failed ∧
      GA.mapGaToDchStatus .completed .action_required = .failed ∧
      GA.mapGaToDchStatus .completed .null = .failed := by
  intro conc
  cases conc <;> exact ⟨rfl, rfl, rfl, rfl, rfl, rfl, rfl, rfl⟩

/-- C3 (counterexample).  The claim states that any command containing a
table alias yields a canonical environment.  The rule-based parser applied
to `"deploy api to prod"` stores the raw alias `"prod"`, which is not in
the canonical set. -/
theorem c3_counterexample :
    (NLU.regexParse "deploy api to prod").environment = some "prod" ∧
    CP.canonicalEnvs.contains "prod" = false := by
  decide

/-- C3 (amended).  Normalization (`normalizeEnvironment`) maps every alias
of the claim's table to exactly one element of the canonical set
{production, staging, development, test, qa, uat}; the rule-based parser's
own intent, however, carries the raw alias until normalization is
applied. -/
theorem c3_normalization_canonical :
    ∀ e : String,
      (["prod", "production", "stage", "staging", "dev", "development",
        "test", "testing", "qa", "uat"] : List String).contains
          (DCH.lowerStr (CP.trimStr e)) = true →
      ∃ c, CP.normalizeEnvironment (some e) = some c ∧
        CP.canonicalEnvs.contains c = true := by
  intro e h
  by_cases he : e = ""
  · subst he
    exact absurd h (by decide)
  · have hne : (e == "") = false := beq_eq_false_iff_ne.mpr he
    have h2 : CP.normalizeEnvironment (some e)
        = some ((CP.envAliasMap.lookup (DCH.lowerStr (CP.trimStr e))).getD
            (DCH.lowerStr (CP.trimStr e))) := by
      simp [CP.normalizeEnvironment, hne]
    have hmem : DCH.lowerStr (CP.trimStr e)
        ∈ (["prod", "production", "stage", "staging", "dev", "development",
            "test", "testing", "qa", "uat"] : List String) := by
      simpa using h
    rw [h2]
    simp only [List.mem_cons, List.mem_nil_iff, or_false] at hmem
    rcases hmem with hc | hc | hc | hc | hc | hc | hc | hc | hc | hc <;>
      rw [hc] <;> exact ⟨_, rfl, by decide⟩

/-- C3 (witness).  The amended statement applied to the alias `"prod"`. -/
theorem c3_normalization_canonical_witness :
    ((["prod", "production", "stage", "staging", "dev", "development",
       "test", "testing", "qa", "uat"] : List String).contains
        (DCH.lowerStr (CP.trimStr "prod")) = true) ∧
    ∃ c, CP.normalizeEnvironment (some "prod") = some c ∧
      CP.canonicalEnvs.contains c = true :=
  ⟨by decide, c3_normalization_canonical "prod" (by decide)⟩

/-- C4 (counterexample).  The claim states validation succeeds iff the
required fields are present with an *integer* replicas in [0, 100] for
scale.  The validator accepts any number in the range: the non-integer
value 1/2 (denominator 2; an integer rational has denominator 1) with a
service passes validation. -/
theorem c4_counterexample :
    CP.validateIntent
        { action := "scale", service := some "api", replicas := some qhalf }
      = CP.ValidationResult.valid ∧
    qhalf.den = 2 := by
  decide

/-- C4 (amended).  Slot validation succeeds iff the per-action required
fields are present: deploy requires a (truthy) service and an environment
that is non-empty after normalization; scale requires a service and a
numeric — not necessarily integer — replicas value in [0, 100] (so
replicas = 0 with a service is valid); logs, rollback, status and restart
require a service; and a rollback intent with no service fails with the
error naming the missing service. -/
theorem c4_validate_required_fields :
    ∀ (svc env : Option String) (rep : Option ℚ) (conf : ℚ),
      (CP.validateIntent ⟨"deploy", svc, env, rep, conf⟩ = .valid ↔
        CP.truthy svc = true ∧ CP.truthy (CP.normalizeEnvironment env) = true) ∧
      (CP.validateIntent ⟨"scale", svc, env, rep, conf⟩ = .valid ↔
        CP.truthy svc = true ∧ ∃ r, rep = some r ∧ 0 ≤ r ∧ r ≤ 100) ∧
      (CP.validateIntent ⟨"logs", svc, env, rep, conf⟩ = .valid ↔
        CP.truthy svc = true) ∧
      (CP.validateIntent ⟨"rollback", svc, env, rep, conf⟩ = .valid ↔
        CP.truthy svc = true) ∧
      (CP.validateIntent ⟨"status", svc, env, rep, conf⟩ = .valid ↔
        CP.truthy svc = true) ∧
      (CP.validateIntent ⟨"restart", svc, env, rep, conf⟩ = .valid ↔
        CP.truthy svc = true) ∧
      CP.validateIntent ⟨"rollback", none, env, rep, conf⟩
        = .invalid "Service name is required for rollback" := by
  intro svc env rep conf
  refine ⟨?_, ?_, ?_, ?_, ?_, ?_, ?_⟩
  · cases hs : CP.truthy svc <;>
      cases hn : CP.truthy (CP.normalizeEnvironment env) <;>
        simp [CP.validateIntent, hs, hn]
  · cases hs : CP.truthy svc
    · simp [CP.validateIntent, hs]
    · cases rep with
      | none => simp [CP.validateIntent, hs]
      | some r =>
          by_cases hr : r < 0 ∨ 100 < r
          · simp only [CP.validateIntent, hs]
            simp only [String.reduceEq, Bool.not_true, Bool.false_eq_true,
              if_false, reduceIte, if_pos hr]
            constructor
            · intro hfalse; cases hfalse
            · rintro ⟨-, r', hr', h0, h100⟩
              rw [Option.some.injEq] at hr'
              rcases hr with hneg | hbig
              · exact absurd (hr' ▸ h0) (not_le.mpr hneg)
              · exact absurd (hr' ▸ h100) (not_le.mpr hbig)
          · push_neg at hr
            simp only [CP.validateIntent, hs]
            simp only [String.reduceEq, Bool.not_true, Bool.false_eq_true,
              if_false, reduceIte, if_neg (by push_neg; exact hr : ¬ (r < 0 ∨ 100 < r))]
            simp only [true_iff, Option.some.injEq]
            constructor
            · intro _; exact ⟨trivial, r, rfl, hr.1, hr.2⟩
            · intro _; rfl
  · cases hs : CP.truthy svc <;> simp [CP.validateIntent, hs]
  · cases hs : CP.truthy svc <;> simp [CP.validateIntent, hs]
  · cases hs : CP.truthy svc <;> simp [CP.validateIntent, hs]
  · cases hs : CP.truthy svc <;> simp [CP.validateIntent, hs]
  · simp [CP.validateIntent, CP.truthy]

/-- C5.  Rule-based action classification is total (a Lean function on all
strings) and deterministic, with the fixed precedence encoded by the order
of `actionPatterns` (rollback > scale > restart > logs > status > deploy):
if no keyword group matches the lowercased command the action is `unknown`,
and if the group at index `i` matches while all higher-precedence groups
fail, the action is that group's action — in particular, when two or more
groups match, the highest-precedence matching group wins. -/
theorem c5_action_precedence :
    ∀ command : String,
      ((∀ p ∈ NLU.actionPatterns, p.1 (DCH.lowerStr command) = false) →
        (NLU.regexParse command).action = NLU.Action.unknown) ∧
      (∀ (i : ℕ) (hi : i < NLU.actionPatterns.length),
        (NLU.actionPatterns.get ⟨i, hi⟩).1 (DCH.lowerStr command) = true →
        (∀ j, ∀ hj : j < i,
          (NLU.actionPatterns.get ⟨j, Nat.lt_trans hj hi⟩).1 (DCH.lowerStr command) = false) →
        (NLU.regexParse command).action = (NLU.actionPatterns.get ⟨i, hi⟩).2) := by
  intro command
  constructor
  · intro h
    exact firstAction_eq_unknown (DCH.lowerStr command) NLU.actionPatterns h
  · intro i hi hmatch hbefore
    exact firstAction_eq_of_first NLU.actionPatterns (DCH.lowerStr command) i hi hmatch hbefore

/-- C5 (witness).  The command `"rollback and scale api"` matches both the
rollback group (index 0) and the scale group (index 1); the theorem yields
the higher-precedence action `rollback`. -/
theorem c5_action_precedence_witness :
    ((NLU.actionPatterns.get ⟨0, by decide⟩).1 (DCH.lowerStr "rollback and scale api") = true) ∧
    ((NLU.actionPatterns.get ⟨1, by decide⟩).1 (DCH.lowerStr "rollback and scale api") = true) ∧
    (NLU.regexParse "rollback and scale api").action = NLU.Action.rollback :=
  ⟨by decide, by decide,
    (c5_action_precedence "rollback and scale api").2 0 (by decide) (by decide)
      (fun j hj => absurd hj (Nat.not_lt_zero j))⟩

/-- C6.  For every command and every failing classifier transport/API call,
`parseCommand` returns normally (the embedding is a total function: the
`try/catch` of the source converts the thrown error into a value): the
result is the rule-based parse with source `"regex-error-fallback"` and the
error recorded in the `error` field. -/
theorem c6_error_fallback :
    ∀ (command hfKey model err : String) (thr : ℚ),
      NLU.parseCommand command (some hfKey) thr model (.error err) =
        { NLU.regexParse command with
            source := "regex-error-fallback"
            error := some err
            debug := some (.modelOnly model) } :=
  fun _ _ _ _ _ => rfl

/-- C7.  Rule-based replica extraction only ever stores a number in
`[0, 100]` (counts are naturals, so the lower bound is automatic), and when
every pattern's candidate is absent or out of range the `replicas` field is
left unset — never clamped to a boundary value. -/
theorem c7_replica_range :
    ∀ command : String,
      (∀ n : ℕ, (NLU.regexParse command).replicas = some n → n ≤ 100) ∧
      ((NLU.replicaCandidates (DCH.lowerStr command)).all NLU.candidateOut = true →
        (NLU.regexParse command).replicas = none) := by
  intro command
  constructor
  · intro n h
    exact pickReplicas_le (NLU.replicaCandidates (DCH.lowerStr command)) n h
  · intro h
    exact pickReplicas_none (NLU.replicaCandidates (DCH.lowerStr command)) h

/-- C7 (witness).  For `"scale api to 500 replicas"` every candidate is out
of range and the count stays unset; for `"scale api to 3 replicas"` the
accepted count 3 is within the bound. -/
theorem c7_replica_range_witness :
    ((NLU.replicaCandidates (DCH.lowerStr "scale api to 500 replicas")).all
        NLU.candidateOut = true) ∧
    (NLU.regexParse "scale api to 500 replicas").replicas = none ∧
    (NLU.regexParse "scale api to 3 replicas").replicas = some 3 ∧
    3 ≤ 100 :=
  ⟨by decide,
    (c7_replica_range "scale api to 500 replicas").2 (by decide),
    by decide,
    (c7_replica_range "scale api to 3 replicas").1 3 (by decide)⟩

/-- C8 (counterexample).  The claim states `started_at` is set iff the
status has left `queued`, including a direct `queued → failed` transition
(remote dispatch error).  On that very trace the store sets `completed_at`
but never `started_at` (only a `running` update sets it), while the status
has left `queued`. -/
theorem c8_counterexample :
    Store.validTrace .queued [GA.JobStatus.failed] = true ∧
    (Store.applyTrace Store.freshJob [GA.JobStatus.failed]).status = GA.JobStatus.failed ∧
    (Store.applyTrace Store.freshJob [GA.JobStatus.failed]).completedSet = true ∧
    (Store.applyTrace Store.freshJob [GA.JobStatus.failed]).startedSet = false := by
  decide

/-- C8 (amended).  Over every sequence of store updates the orchestrator
can issue for one job, the status only moves forward along
queued → running → {completed, failed, cancelled}; `completed_at` is set
iff the final status is terminal; and `started_at` is set iff some update
wrote `running` — so on a direct `queued → failed` path (e.g. a remote
dispatch error) `completed_at` is set but `started_at` remains unset. -/
theorem c8_lifecycle_invariant :
    ∀ tr : List GA.JobStatus,
      Store.validTrace .queued tr = true →
      ((Store.applyTrace Store.freshJob tr).completedSet = true ↔
        Store.isTerminal (Store.applyTrace Store.freshJob tr).status = true) ∧
      ((Store.applyTrace Store.freshJob tr).startedSet = true ↔
        GA.JobStatus.running ∈ tr) ∧
      List.Chain (fun a b => Store.statusRank a ≤ Store.statusRank b) .queued tr := by
  intro tr hv
  refine ⟨?_, ?_, ?_⟩
  · have h := applyTrace_completedSet tr Store.freshJob hv rfl
    rw [h]
  · rw [applyTrace_startedSet tr Store.freshJob]
    simp [Store.freshJob, List.any_eq_true]
  · exact validTrace_chain tr .queued hv

/-- C8 (witness).  The amended statement applied to the ordinary successful
trace `queued → running → completed`. -/
theorem c8_lifecycle_invariant_witness :
    (Store.validTrace .queued [GA.JobStatus.running, GA.JobStatus.completed] = true) ∧
    (((Store.applyTrace Store.freshJob
          [GA.JobStatus.running, GA.JobStatus.completed]).completedSet = true ↔
        Store.isTerminal (Store.applyTrace Store.freshJob
          [GA.JobStatus.running, GA.JobStatus.completed]).status = true) ∧
      ((Store.applyTrace Store.freshJob
          [GA.JobStatus.running, GA.JobStatus.completed]).startedSet = true ↔
        GA.JobStatus.running ∈ [GA.JobStatus.running, GA.JobStatus.completed]) ∧
      List.Chain (fun a b => Store.statusRank a ≤ Store.statusRank b) .queued
        [GA.JobStatus.running, GA.JobStatus.completed]) :=
  ⟨by decide, c8_lifecycle_invariant [GA.JobStatus.running, GA.JobStatus.completed] (by decide)⟩

/-- C9.  The rule-based parser is deterministic: it is embedded as a pure
function of the command string alone (the source reads no global mutable
state and uses no randomness), so parsing the same command twice yields
identical `ParsedIntent` values in all fields. -/
theorem c9_regex_parse_deterministic :
    ∀ command : String, NLU.regexParse command = NLU.regexParse command :=
  fun _ => rfl

/-- C10.  Frame property of the classifier-augmented parse: for every
command, key configuration and classifier outcome (accepted, rejected below
threshold, empty ranking, or transport error), the returned environment,
service and replicas fields are exactly those of the rule-based pass on the
same command; the classifier can only influence action, confidence, source
and the diagnostic fields. -/
theorem c10_classifier_frame :
    ∀ (command model : String) (hfApiKey : Option String) (thr : ℚ)
      (res : Except String (List (NLU.Action × ℚ))),
      (NLU.parseCommand command hfApiKey thr model res).environment
          = (NLU.regexParse command).environment ∧
      (NLU.parseCommand command hfApiKey thr model res).service
          = (NLU.regexParse command).service ∧
      (NLU.parseCommand command hfApiKey thr model res).replicas
          = (NLU.regexParse command).replicas := by
  intro command model hfApiKey thr res
  cases hfApiKey with
  | none => exact ⟨rfl, rfl, rfl⟩
  | some k =>
      cases res with
      | error e => exact ⟨rfl, rfl, rfl⟩
      | ok ranked =>
          cases ranked with
          | nil =>
              by_cases h : thr ≤ 0
              · simp [NLU.parseCommand, h]
              · simp [NLU.parseCommand, h]
          | cons top rest =>
              by_cases h : thr ≤ top.2
              · simp [NLU.parseCommand, h]
              · simp [NLU.parseCommand, h]
